import Mathlib

/- Shallow embedding of the SnypsoTranscriptApp repository
   (src/app.py; src/app_vibbli.py duplicates the same core helpers).

   Strings are modelled by Lean `String`.  Python `str.strip()` is modelled
   by `pyStrip` (dropping whitespace characters from both ends; Python
   strips Unicode whitespace while `Char.isWhitespace` covers the ASCII
   whitespace occurring in the inputs of interest).  The Python substring
   test `needle in haystack` is modelled by `pyIn`. -/

namespace Snypso

/-- Boolean test that the first char list is a prefix of the second
(the building block of the Python substring test). -/
def isPrefixB : List Char → List Char → Bool
  | [], _ => true
  | _ :: _, [] => false
  | a :: as, b :: bs => a == b && isPrefixB as bs

/-- Boolean substring test on char lists: Python `needle in haystack`. -/
def isInfixB (needle : List Char) : List Char → Bool
  | [] => needle.isEmpty
  | b :: bs => isPrefixB needle (b :: bs) || isInfixB needle bs

/-- Python `needle in haystack` on strings. -/
def pyIn (needle haystack : String) : Bool :=
  isInfixB needle.data haystack.data

/-- Python `s.strip()`: drop whitespace from both ends. -/
def pyStrip (s : String) : String :=
  ⟨((s.data.dropWhile Char.isWhitespace).reverse.dropWhile Char.isWhitespace).reverse⟩

/-- Right trim on char lists: drop trailing whitespace.  `pyStrip` is
`trimR` after a left `dropWhile`. -/
def trimR (l : List Char) : List Char :=
  (l.reverse.dropWhile Char.isWhitespace).reverse

/-- Collapse runs of consecutive equal strings to one occurrence:
`[k for k, _ in groupby(...)]` (src/app.py line 84). -/
def dedupAdj : List String → List String
  | [] => []
  | [a] => [a]
  | a :: b :: t => if a = b then dedupAdj (b :: t) else a :: dedupAdj (b :: t)

/-- Pass 1 of `clean_lines` (src/app.py line 84):
`[k for k, _ in groupby([ln.strip() for ln in lines if ln.strip()])]`. -/
def pass1 (lines : List String) : List String :=
  dedupAdj ((lines.filter (fun ln => decide (pyStrip ln ≠ ""))).map pyStrip)

/-- Pass 2 of `clean_lines` (src/app.py lines 85-97): the accumulator loop.
`acc` holds the accumulated list reversed (its head is Python `final[-1]`). -/
def pass2Aux : List String → List String → List String
  | acc, [] => acc.reverse
  | [], ln :: rest => pass2Aux [ln] rest
  | prev :: accTail, ln :: rest =>
    if ln = prev then pass2Aux (prev :: accTail) rest
    else if pyIn ln prev then pass2Aux (prev :: accTail) rest
    else if pyIn prev ln then pass2Aux (ln :: accTail) rest
    else pass2Aux (ln :: prev :: accTail) rest

/-- `clean_lines` (src/app.py lines 80-98, identical in src/app_vibbli.py
lines 99-117): exact adjacent dedup, then adjacent-overlap collapse. -/
def clean_lines (lines : List String) : List String :=
  pass2Aux [] (pass1 lines)

/-- `strip_timestamps` (src/app.py lines 100-101):
`re.sub(r"^\[\d\x7b2\x7d:\d\x7b2\x7d:\d\x7b2\x7d\]\s*", "", line).strip()`.
The regex classes `\d` and `\s` are modelled by `Char.isDigit` and
`Char.isWhitespace` (the app's timestamps are ASCII). -/
def strip_timestamps (line : String) : String :=
  match line.data with
  | '[' :: h1 :: h2 :: ':' :: m1 :: m2 :: ':' :: s1 :: s2 :: ']' :: rest =>
    if h1.isDigit && h2.isDigit && m1.isDigit && m2.isDigit && s1.isDigit && s2.isDigit
    then pyStrip ⟨rest.dropWhile Char.isWhitespace⟩
    else pyStrip line
  | _ => pyStrip line

/-- The paragraph output built by `save_transcript` (src/app.py lines 126-130):
`no_ts = [strip_timestamps(ln) for ln in cleaned if ln.strip()]` joined by
`" ".join(no_ts)`. -/
def paragraph_of_cleaned (cleaned : List String) : String :=
  String.intercalate " "
    ((cleaned.filter (fun ln => decide (pyStrip ln ≠ ""))).map strip_timestamps)

/-- Modelled from the spec sentence of C3 (the claim under test, not the
code): strip a leading timestamp marker matching the exact pattern
`[HH:MM:SS] ` — bracketed two-digit fields followed by ONE space — if present
at the start, trim remaining whitespace, drop lines that become empty after
stripping, join the survivors with single spaces. -/
def dropSpecMarker (line : String) : String :=
  match line.data with
  | '[' :: h1 :: h2 :: ':' :: m1 :: m2 :: ':' :: s1 :: s2 :: ']' :: ' ' :: rest =>
    if h1.isDigit && h2.isDigit && m1.isDigit && m2.isDigit && s1.isDigit && s2.isDigit
    then ⟨rest⟩
    else line
  | _ => line

/-- The C3 claim's paragraph function, built from the spec's words (strip the
exact one-space marker, trim, drop lines empty AFTER stripping, join). -/
def paragraphSpecC3 (cleaned : List String) : String :=
  String.intercalate " "
    ((cleaned.map (fun ln => pyStrip (dropSpecMarker ln))).filter
      (fun l => decide (l ≠ "")))

/-- C3 amended marker removal: a leading `[HH:MM:SS]` bracket followed by any
amount of whitespace, including none. -/
def dropMarkerAnyWs (line : String) : String :=
  match line.data with
  | '[' :: h1 :: h2 :: ':' :: m1 :: m2 :: ':' :: s1 :: s2 :: ']' :: rest =>
    if h1.isDigit && h2.isDigit && m1.isDigit && m2.isDigit && s1.isDigit && s2.isDigit
    then ⟨rest.dropWhile Char.isWhitespace⟩
    else line
  | _ => line

/-- The C3 amended paragraph function: keep the cleaned lines whose ORIGINAL
text is non-blank, strip a leading `[HH:MM:SS]` bracket plus any following
whitespace from each, trim, and join all results (empty ones included) with
single spaces. -/
def paragraphSpecC3Amended (cleaned : List String) : String :=
  String.intercalate " "
    ((cleaned.filter (fun ln => decide (pyStrip ln ≠ ""))).map
      (fun ln => pyStrip (dropMarkerAnyWs ln)))

/-- A subtitle cue as consumed by `vtt_to_lines`: `cue.start` is the start
time rendered as `HH:MM:SS.mmm`, `cue.text` the caption text. -/
structure Cue where
  start : String
  text : String

/-- Python `s.replace("\n", " ")`. -/
def newlineToSpace (s : String) : String :=
  ⟨s.data.map (fun c => if c = '\n' then ' ' else c)⟩

/-- Python `s.split(".")[0]`: the prefix of `s` before the first dot. -/
def pySplitDot (s : String) : String :=
  ⟨s.data.takeWhile (fun c => c != '.')⟩

/-- The body of the `vtt_to_lines` loop (src/app.py lines 67-75): skip a cue
whose text strips to empty, otherwise emit the text, `[HH:MM:SS]`-prefixed
when timestamps are requested (`ts = cue.start.split(".")[0]`). -/
def cueLine (include_timestamps : Bool) (cue : Cue) : Option String :=
  let text := newlineToSpace (pyStrip cue.text)
  if text = "" then none
  else if include_timestamps then
    some ("[" ++ pySplitDot cue.start ++ "] " ++ text)
  else some text

/-- `vtt_to_lines` (src/app.py lines 62-78) over an already-parsed cue list
(the `webvtt.read` collaborator is external): project each cue with
non-empty stripped text to a line and raise `ValueError` when no line
survives. -/
def vtt_to_lines (cues : List Cue) (include_timestamps : Bool) :
    Except String (List String) :=
  if cues.filterMap (cueLine include_timestamps) = [] then
    Except.error "Subtitles file was empty after parsing."
  else Except.ok (cues.filterMap (cueLine include_timestamps))

/-- Python `s[-n:]`: the last `n` characters of `s` (all of `s` when shorter). -/
def lastChars (n : Nat) (s : String) : String :=
  ⟨s.data.drop (s.data.length - n)⟩

/-- One row of the batch results table: `(reference, status, txt, para)`. -/
abbrev BatchRow := String × String × String × String

/-- The batch loop (src/app.py lines 195-203; identical in src/app_vibbli.py
lines 334-342), with the impure pipeline `save_transcript` abstracted as
`save reference base_name include_timestamps`.  For each entry the base name
is `item[-11:]`; success appends `(item, "OK", txt_path, para_path)`, any
failure appends `(item, "ERROR: " + e, "", "")` and the loop continues. -/
def runBatch (save : String → String → Bool → Except String (String × String × String))
    (batch_ts : Bool) (entries : List String) : List BatchRow :=
  entries.map (fun item =>
    match save item (lastChars 11 item) batch_ts with
    | Except.ok (txt_path, para_path, _) => (item, "OK", txt_path, para_path)
    | Except.error e => (item, "ERROR: " ++ e, "", ""))

/-- An always-succeeding pipeline stub, used to exercise the batch loop at a
concrete input. -/
def saveOkStub : String → String → Bool → Except String (String × String × String) :=
  fun _ _ _ => Except.ok ("t", "p", "v")

/-- An always-failing pipeline stub, used to exercise the batch loop at a
concrete input. -/
def saveErrStub : String → String → Bool → Except String (String × String × String) :=
  fun _ _ _ => Except.error "no subtitles"

theorem isPrefixB_iff (l₁ l₂ : List Char) : isPrefixB l₁ l₂ = true ↔ l₁ <+: l₂ := by
  induction l₁ generalizing l₂ with
  | nil => simp [isPrefixB]
  | cons a as ih =>
    cases l₂ with
    | nil => simp [isPrefixB]
    | cons b bs =>
      simp only [isPrefixB, Bool.and_eq_true, beq_iff_eq, List.cons_prefix_cons, ih]

theorem isInfixB_iff (n h : List Char) : isInfixB n h = true ↔ n <:+: h := by
  induction h with
  | nil => simp [isInfixB, List.isEmpty_iff]
  | cons b bs ih => simp [isInfixB, List.infix_cons_iff, isPrefixB_iff, ih]

theorem pyIn_iff (n h : String) : pyIn n h = true ↔ n.data <:+: h.data :=
  isInfixB_iff n.data h.data

theorem pyIn_refl (s : String) : pyIn s s = true :=
  (pyIn_iff s s).mpr List.infix_rfl

theorem pyIn_trans {a b c : String} (hab : pyIn a b = true) (hbc : pyIn b c = true) :
    pyIn a c = true :=
  (pyIn_iff a c).mpr (((pyIn_iff a b).mp hab).trans ((pyIn_iff b c).mp hbc))

theorem ne_of_pyIn_eq_false {a b : String} (h : pyIn b a = false) : b ≠ a := by
  intro he
  rw [he, pyIn_refl a] at h
  exact absurd h (by simp)

theorem pyStrip_data (s : String) :
    (pyStrip s).data = trimR (s.data.dropWhile Char.isWhitespace) := rfl

theorem dropWhile_head_false {p : Char → Bool} :
    ∀ (l : List Char) (a : Char), (l.dropWhile p).head? = some a → p a = false := by
  intro l
  induction l with
  | nil => intro a h; simp at h
  | cons b t ih =>
    intro a h
    by_cases hb : p b
    · rw [List.dropWhile_cons_of_pos hb] at h
      exact ih a h
    · rw [List.dropWhile_cons_of_neg hb] at h
      simp only [List.head?_cons, Option.some.injEq] at h
      rw [← h]
      exact Bool.of_not_eq_true hb

theorem dropWhile_eq_self_of_head {p : Char → Bool} (l : List Char)
    (h : ∀ a, l.head? = some a → p a = false) : l.dropWhile p = l := by
  cases l with
  | nil => rfl
  | cons b t =>
    have hb : p b = false := h b rfl
    exact List.dropWhile_cons_of_neg (by simp [hb])

theorem dropWhile_idem (p : Char → Bool) (l : List Char) :
    (l.dropWhile p).dropWhile p = l.dropWhile p :=
  dropWhile_eq_self_of_head _ (fun a ha => dropWhile_head_false l a ha)

theorem getLast?_dropWhile {p : Char → Bool} :
    ∀ l : List Char, l.dropWhile p ≠ [] → (l.dropWhile p).getLast? = l.getLast? := by
  intro l
  induction l with
  | nil => intro h; simp [List.dropWhile] at h
  | cons b t ih =>
    intro h
    by_cases hb : p b
    · rw [List.dropWhile_cons_of_pos hb] at h ⊢
      have ht : t ≠ [] := by
        intro he; rw [he] at h; simp [List.dropWhile] at h
      rw [ih h, List.getLast?_cons]
      cases hl : t.getLast? with
      | none => exact absurd (List.getLast?_eq_none_iff.mp hl) ht
      | some a => rfl
    · rw [List.dropWhile_cons_of_neg hb]

theorem trimR_head_false {p : Char → Bool} : ∀ (l : List Char) (a : Char),
    ((l.reverse.dropWhile p).reverse).head? = some a → l.head? = some a := by
  intro l a h
  rw [List.head?_reverse] at h
  have hne : l.reverse.dropWhile p ≠ [] := by
    intro he; rw [he] at h; simp at h
  rw [getLast?_dropWhile l.reverse hne] at h
  simpa using h

theorem dropWhile_trimR (l : List Char)
    (hl : ∀ a, l.head? = some a → Char.isWhitespace a = false) :
    (trimR l).dropWhile Char.isWhitespace = trimR l := by
  apply dropWhile_eq_self_of_head
  intro a ha
  exact hl a (trimR_head_false l a ha)

theorem trimR_trimR (l : List Char) : trimR (trimR l) = trimR l := by
  unfold trimR
  rw [List.reverse_reverse, dropWhile_idem]

/-- Python `strip` is idempotent. -/
theorem pyStrip_idem (s : String) : pyStrip (pyStrip s) = pyStrip s := by
  apply String.ext
  rw [pyStrip_data, pyStrip_data]
  show trimR (List.dropWhile _ (trimR (List.dropWhile _ s.data))) = _
  rw [dropWhile_trimR _ (fun a ha => dropWhile_head_false s.data a ha), trimR_trimR]

/-- Stripping after dropping leading whitespace is just stripping. -/
theorem pyStrip_dropWhile (l : List Char) :
    pyStrip ⟨l.dropWhile Char.isWhitespace⟩ = pyStrip ⟨l⟩ := by
  apply String.ext
  rw [pyStrip_data, pyStrip_data]
  show trimR (List.dropWhile _ (List.dropWhile _ l)) = _
  rw [dropWhile_idem]

/-- Invariant of the accumulator loop: if along the (reversed) accumulator no
element is a substring of its successor, the produced list has no element
whose successor fails to be a non-substring — i.e. in output order, the later
of two adjacent lines is never a substring of the earlier. -/
theorem pass2Aux_chain :
    ∀ (rest acc : List String),
      List.Chain' (fun x y => pyIn x y = false) acc →
      List.Chain' (fun a b => pyIn b a = false) (pass2Aux acc rest) := by
  intro rest
  induction rest with
  | nil =>
    intro acc h
    rw [pass2Aux]
    exact List.chain'_reverse.mpr h
  | cons ln rest ih =>
    intro acc h
    match acc with
    | [] =>
      show List.Chain' _ (pass2Aux [ln] rest)
      exact ih [ln] (by simp)
    | prev :: accTail =>
      rw [pass2Aux]
      by_cases h1 : ln = prev
      · rw [if_pos h1]; exact ih _ h
      · rw [if_neg h1]
        cases h2 : pyIn ln prev with
        | true => simp only [if_pos rfl]; exact ih _ h
        | false =>
          simp only [Bool.false_eq_true, if_neg (fun hc => Bool.false_ne_true hc)]
          cases h3 : pyIn prev ln with
          | true =>
            simp only [if_pos rfl]
            apply ih
            obtain ⟨hhd, htail⟩ := List.chain'_cons'.mp h
            apply List.chain'_cons'.mpr
            refine ⟨?_, htail⟩
            intro y hy
            cases hln : pyIn ln y with
            | false => rfl
            | true =>
              have : pyIn prev y = true := pyIn_trans h3 hln
              rw [hhd y hy] at this
              exact absurd this (by simp)
          | false =>
            simp only [Bool.false_eq_true, if_neg (fun hc => Bool.false_ne_true hc)]
            apply ih
            apply List.chain'_cons'.mpr
            exact ⟨fun y hy => by simp_all, h⟩

/-- In output order the cleaned list carries the invariant: the later of two
adjacent lines is never a (non-strict) substring of the earlier. -/
theorem clean_lines_chain (lines : List String) :
    List.Chain' (fun a b => pyIn b a = false) (clean_lines lines) :=
  pass2Aux_chain (pass1 lines) [] (by simp)

/-- The accumulator loop emits a subsequence of (reversed accumulator ++ input). -/
theorem pass2Aux_sublist :
    ∀ (rest acc : List String), (pass2Aux acc rest).Sublist (acc.reverse ++ rest) := by
  intro rest
  induction rest with
  | nil => intro acc; simp [pass2Aux]
  | cons ln rest ih =>
    intro acc
    match acc with
    | [] =>
      show (pass2Aux [ln] rest).Sublist _
      simpa using ih [ln]
    | prev :: accTail =>
      rw [pass2Aux]
      have hskip : (pass2Aux (prev :: accTail) rest).Sublist
          ((prev :: accTail).reverse ++ ln :: rest) := by
        apply (ih (prev :: accTail)).trans
        apply List.Sublist.append_left
        exact List.sublist_cons_self ln rest
      by_cases h1 : ln = prev
      · rw [if_pos h1]; exact hskip
      · rw [if_neg h1]
        cases h2 : pyIn ln prev with
        | true => simp only [if_pos rfl]; exact hskip
        | false =>
          simp only [Bool.false_eq_true, if_neg (fun hc => Bool.false_ne_true hc)]
          cases h3 : pyIn prev ln with
          | true =>
            simp only [if_pos rfl]
            apply (ih (ln :: accTail)).trans
            simp only [List.reverse_cons, List.append_assoc, List.singleton_append]
            apply List.Sublist.append_left
            exact List.sublist_cons_self prev (ln :: rest)
          | false =>
            simp only [Bool.false_eq_true, if_neg (fun hc => Bool.false_ne_true hc)]
            have := ih (ln :: prev :: accTail)
            simpa [List.append_assoc] using this

/-- `clean_lines` output is a subsequence of the stripped input lines. -/
theorem clean_lines_sublist_strip (lines : List String) :
    (clean_lines lines).Sublist (lines.map pyStrip) := by
  have h1 : (clean_lines lines).Sublist (pass1 lines) := by
    simpa using pass2Aux_sublist (pass1 lines) []
  apply h1.trans
  unfold pass1
  have h2 : (dedupAdj ((lines.filter (fun ln => decide (pyStrip ln ≠ ""))).map pyStrip)).Sublist
      ((lines.filter (fun ln => decide (pyStrip ln ≠ ""))).map pyStrip) := by
    generalize (lines.filter (fun ln => decide (pyStrip ln ≠ ""))).map pyStrip = l
    induction l with
    | nil => simp [dedupAdj]
    | cons a t iht =>
      match t with
      | [] => simp [dedupAdj]
      | b :: t' =>
        rw [dedupAdj]
        by_cases hab : a = b
        · rw [if_pos hab]; exact (iht).trans (List.sublist_cons_self a (b :: t'))
        · rw [if_neg hab]; exact iht.cons₂ a
  apply h2.trans
  exact List.Sublist.map pyStrip (List.filter_sublist lines)

theorem dedupAdj_sublist (l : List String) : (dedupAdj l).Sublist l := by
  induction l with
  | nil => simp [dedupAdj]
  | cons a t ih =>
    match t with
    | [] => simp [dedupAdj]
    | b :: t' =>
      rw [dedupAdj]
      by_cases hab : a = b
      · rw [if_pos hab]; exact ih.trans (List.sublist_cons_self a (b :: t'))
      · rw [if_neg hab]; exact ih.cons₂ a

theorem dedupAdj_eq_self (l : List String) (h : List.Chain' (fun a b => a ≠ b) l) :
    dedupAdj l = l := by
  induction l with
  | nil => rfl
  | cons a t ih =>
    match t with
    | [] => rfl
    | b :: t' =>
      obtain ⟨hab, ht⟩ := List.chain'_cons.mp h
      rw [dedupAdj, if_neg hab, ih ht]

/-- Every line of the cleaned output is a trimmed, non-blank string
(it originates from pass 1, whose elements are `ln.strip()` values). -/
theorem mem_clean_lines (lines : List String) (x : String) (hx : x ∈ clean_lines lines) :
    pyStrip x = x ∧ x ≠ "" := by
  have h1 : x ∈ pass1 lines := by
    have := pass2Aux_sublist (pass1 lines) []
    simp only [List.reverse_nil, List.nil_append] at this
    exact this.subset hx
  unfold pass1 at h1
  have h2 := (dedupAdj_sublist _).subset h1
  simp only [List.mem_map, List.mem_filter, decide_eq_true_eq] at h2
  obtain ⟨ln, ⟨-, hne⟩, hstrip⟩ := h2
  subst hstrip
  exact ⟨pyStrip_idem ln, hne⟩

theorem clean_lines_chain_ne (lines : List String) :
    List.Chain' (fun a b => a ≠ b) (clean_lines lines) :=
  (clean_lines_chain lines).imp (fun _x _y hab => (ne_of_pyIn_eq_false hab).symm)

/-- C1 (amended): in the output of `clean_lines`, adjacent lines are never
equal and the later of an adjacent pair is never a substring of the earlier;
the original claim's other direction (the earlier never a substring of the
later) fails, see the counterexample. -/
theorem clean_lines_adjacent (lines : List String) (i : Nat)
    (h : i + 1 < (clean_lines lines).length) :
    (clean_lines lines).get ⟨i, Nat.lt_of_succ_lt h⟩ ≠
        (clean_lines lines).get ⟨i + 1, h⟩ ∧
      pyIn ((clean_lines lines).get ⟨i + 1, h⟩)
        ((clean_lines lines).get ⟨i, Nat.lt_of_succ_lt h⟩) = false := by
  have hlt : i < (clean_lines lines).length - 1 := by omega
  have h1 := List.chain'_iff_get.mp (clean_lines_chain_ne lines) i hlt
  have h2 := List.chain'_iff_get.mp (clean_lines_chain lines) i hlt
  exact ⟨h1, h2⟩

/-- C1 witness: the amended invariant at the concrete input
`["ab", "c", "abc"]`, adjacent pair at index 0. -/
theorem clean_lines_adjacent_witness :
    (clean_lines ["ab", "c", "abc"]).get ⟨0, by decide⟩ ≠
        (clean_lines ["ab", "c", "abc"]).get ⟨0 + 1, by decide⟩ ∧
      pyIn ((clean_lines ["ab", "c", "abc"]).get ⟨0 + 1, by decide⟩)
        ((clean_lines ["ab", "c", "abc"]).get ⟨0, by decide⟩) = false :=
  clean_lines_adjacent ["ab", "c", "abc"] 0 (by decide)

/-- C1 counterexample: on input `["ab", "c", "abc"]` the cleaner's
replacement step leaves the adjacent output pair `"ab"`, `"abc"` in which the
earlier line is a strict substring of the later, refuting the claimed
no-containment invariant as stated. -/
theorem clean_lines_adjacent_cex :
    clean_lines ["ab", "c", "abc"] = ["ab", "abc"] ∧
      pyIn "ab" "abc" = true ∧ "ab" ≠ "abc" := by decide

/-- C2 (amended): the output of `clean_lines` is a fixed point of pass 1
(trimming, blank-dropping and exact-adjacent-deduplication); any change under
a second full application comes only from pass 2's containment collapse, and
such change can occur, see the counterexample. -/
theorem pass1_clean_lines_fixed (lines : List String) :
    pass1 (clean_lines lines) = clean_lines lines := by
  unfold pass1
  have hmem := mem_clean_lines lines
  have hfilter : (clean_lines lines).filter (fun ln => decide (pyStrip ln ≠ "")) =
      clean_lines lines := by
    apply List.filter_eq_self.mpr
    intro a ha
    have := hmem a ha
    simp [this.1, this.2]
  rw [hfilter]
  have hmap : (clean_lines lines).map pyStrip = clean_lines lines := by
    have h : ∀ a ∈ clean_lines lines, pyStrip a = id a := fun a ha => (hmem a ha).1
    rw [List.map_congr_left h, List.map_id]
  rw [hmap]
  exact dedupAdj_eq_self _ (clean_lines_chain_ne lines)

/-- C2 counterexample: `clean_lines` is not idempotent; on
`["ab", "c", "abc"]` the first application returns `["ab", "abc"]` and the
second collapses that to `["abc"]`. -/
theorem clean_lines_not_idempotent_cex :
    clean_lines ["ab", "c", "abc"] = ["ab", "abc"] ∧
      clean_lines (clean_lines ["ab", "c", "abc"]) = ["abc"] ∧
      clean_lines (clean_lines ["ab", "c", "abc"]) ≠ clean_lines ["ab", "c", "abc"] := by
  decide

/-- C4: the containment-collapse worked example — `clean_lines` maps
`["the cat sat", "the cat sat on the mat", "on the mat"]` to exactly
`["the cat sat on the mat"]`. -/
theorem clean_lines_containment_example :
    clean_lines ["the cat sat", "the cat sat on the mat", "on the mat"] =
      ["the cat sat on the mat"] := by decide

/-- C5: the cleaned output is a subsequence of the trimmed input lines in
original order (no reordering), and its length never exceeds the input
length. -/
theorem clean_lines_order_length (lines : List String) :
    (clean_lines lines).Sublist (lines.map pyStrip) ∧
      (clean_lines lines).length ≤ lines.length := by
  refine ⟨clean_lines_sublist_strip lines, ?_⟩
  have := (clean_lines_sublist_strip lines).length_le
  simpa using this

theorem strip_timestamps_eq_strip_drop (line : String) :
    strip_timestamps line = pyStrip (dropMarkerAnyWs line) := by
  obtain ⟨d⟩ := line
  unfold strip_timestamps dropMarkerAnyWs
  split
  · split <;> rfl
  · rfl

/-- C3 counterexample: the claim's paragraph reduction and the code's differ
on the cleaned line list `["[00:01:02]", "hi"]` (a genuine `clean_lines`
output, as the first conjunct shows): the code strips the bare-bracket line
to the empty string but has already committed to keeping it, producing the
leading-space paragraph `" hi"`, while the claimed reduction (exact
one-space marker, drop lines empty after stripping) produces
`"[00:01:02] hi"`. -/
theorem paragraph_reducer_cex :
    clean_lines ["[00:01:02]", "hi"] = ["[00:01:02]", "hi"] ∧
      paragraph_of_cleaned ["[00:01:02]", "hi"] = " hi" ∧
      paragraphSpecC3 ["[00:01:02]", "hi"] = "[00:01:02] hi" ∧
      paragraph_of_cleaned ["[00:01:02]", "hi"] ≠ paragraphSpecC3 ["[00:01:02]", "hi"] := by
  decide

/-- C3 (amended): the paragraph output keeps exactly the cleaned lines whose
original text is non-blank, strips from each a leading `[HH:MM:SS]` bracket
followed by any amount of whitespace (including none), trims the remainder,
and joins all resulting strings — including any that became empty — with a
single space separator. -/
theorem paragraph_reducer_amended (cleaned : List String) :
    paragraph_of_cleaned cleaned = paragraphSpecC3Amended cleaned := by
  unfold paragraph_of_cleaned paragraphSpecC3Amended
  congr 1
  apply List.map_congr_left
  intro a _
  exact strip_timestamps_eq_strip_drop a

theorem newlineToSpace_eq_empty (s : String) : newlineToSpace s = "" ↔ s = "" := by
  constructor
  · intro h
    apply String.ext
    have hd := congrArg String.data h
    simp only [newlineToSpace] at hd
    exact List.map_eq_nil_iff.mp hd
  · intro h
    rw [h]
    rfl

theorem cueLine_eq_none (b : Bool) (c : Cue) :
    cueLine b c = none ↔ pyStrip c.text = "" := by
  unfold cueLine
  by_cases h : newlineToSpace (pyStrip c.text) = ""
  · rw [if_pos h]
    simp [(newlineToSpace_eq_empty _).mp h]
  · rw [if_neg h]
    have hne : pyStrip c.text ≠ "" := fun he => h (by rw [he]; rfl)
    cases b <;> simp [hne]

/-- C6: the projection to lines fails with the empty-transcript error exactly
when every cue's text is empty after trimming; a track with at least one
non-whitespace cue never raises it, a track whose every cue is
whitespace-only always does. -/
theorem vtt_to_lines_empty_iff (cues : List Cue) (b : Bool) :
    vtt_to_lines cues b = Except.error "Subtitles file was empty after parsing." ↔
      ∀ c ∈ cues, pyStrip c.text = "" := by
  unfold vtt_to_lines
  split
  next hnil =>
    rw [List.filterMap_eq_nil_iff] at hnil
    simp only [true_iff]
    intro c hc
    exact (cueLine_eq_none b c).mp (hnil c hc)
  next hnil =>
    constructor
    · intro h
      exact absurd h (by simp)
    · intro hall
      exact absurd (List.filterMap_eq_nil_iff.mpr
        (fun c hc => (cueLine_eq_none b c).mpr (hall c hc))) hnil

theorem pySplitDot_append (hms frac : String) (hdot : ∀ c ∈ hms.data, c ≠ '.') :
    pySplitDot (hms ++ "." ++ frac) = hms := by
  apply String.ext
  show (hms ++ "." ++ frac).data.takeWhile (fun c => c != '.') = hms.data
  rw [String.data_append, String.data_append,
    show ("." : String).data = ['.'] from rfl, List.append_assoc]
  rw [List.takeWhile_append_of_pos (by intro a ha; simpa using hdot a ha)]
  rw [show (['.'] ++ frac.data : List Char) = '.' :: frac.data from rfl,
    List.takeWhile_cons_of_neg (by simp)]
  simp

/-- C8: projecting a cue whose start time is `HH:MM:SS.frac` with timestamps
enabled emits the line `[HH:MM:SS] text` — the fractional part is discarded
by string truncation at the first dot, with no rounding. -/
theorem vtt_timestamp_truncation (hms frac text : String)
    (hdot : ∀ c ∈ hms.data, c ≠ '.') (htext : pyStrip text ≠ "") :
    vtt_to_lines [⟨hms ++ "." ++ frac, text⟩] true =
      Except.ok ["[" ++ hms ++ "] " ++ newlineToSpace (pyStrip text)] := by
  have hline : cueLine true ⟨hms ++ "." ++ frac, text⟩ =
      some ("[" ++ hms ++ "] " ++ newlineToSpace (pyStrip text)) := by
    unfold cueLine
    have hne : newlineToSpace (pyStrip text) ≠ "" :=
      fun h => htext ((newlineToSpace_eq_empty _).mp h)
    rw [if_neg hne, if_pos rfl, pySplitDot_append hms frac hdot]
  unfold vtt_to_lines
  simp only [List.filterMap_cons, List.filterMap_nil, hline]
  simp

/-- C8 witness: the cue starting at `00:01:02.345` produces the prefix
`[00:01:02]`. -/
theorem vtt_timestamp_truncation_witness :
    vtt_to_lines [⟨"00:01:02" ++ "." ++ "345", "hello"⟩] true =
      Except.ok ["[" ++ "00:01:02" ++ "] " ++ newlineToSpace (pyStrip "hello")] :=
  vtt_timestamp_truncation "00:01:02" "345" "hello" (by decide) (by decide)

/-- C9: `strip_timestamps` removes a leading `[HH:MM:SS]` bracket followed by
any amount of whitespace — including none — and trims the remainder: for any
tail `rest` (with or without a space after the bracket) the result is
`rest` trimmed. -/
theorem strip_timestamps_bracket (d1 d2 d3 d4 d5 d6 : Char) (rest : String)
    (hdig : (d1.isDigit && d2.isDigit && d3.isDigit &&
      d4.isDigit && d5.isDigit && d6.isDigit) = true) :
    strip_timestamps
        ⟨'[' :: d1 :: d2 :: ':' :: d3 :: d4 :: ':' :: d5 :: d6 :: ']' :: rest.data⟩ =
      pyStrip rest := by
  show (if d1.isDigit && d2.isDigit && d3.isDigit && d4.isDigit && d5.isDigit && d6.isDigit
      then pyStrip ⟨rest.data.dropWhile Char.isWhitespace⟩
      else pyStrip
        ⟨'[' :: d1 :: d2 :: ':' :: d3 :: d4 :: ':' :: d5 :: d6 :: ']' :: rest.data⟩) =
    pyStrip rest
  rw [if_pos hdig]
  simpa using pyStrip_dropWhile rest.data

/-- C9 witness: `"[00:01:02]text"` — no space after the bracket — strips to
`"text"`. -/
theorem strip_timestamps_bracket_witness :
    strip_timestamps
        ⟨'[' :: '0' :: '0' :: ':' :: '0' :: '1' :: ':' :: '0' :: '2' :: ']' :: "text".data⟩ =
      pyStrip "text" :=
  strip_timestamps_bracket '0' '0' '0' '1' '0' '2' "text" (by decide)

theorem getD_map_lt {α β : Type} (f : α → β) (l : List α) (i : Nat) (h : i < l.length)
    (d : β) (d' : α) : (l.map f).getD i d = f (l.getD i d') := by
  induction l generalizing i with
  | nil => simp at h
  | cons a t ih =>
    cases i with
    | zero => rfl
    | succ j =>
      simp only [List.map_cons, List.getD_cons_succ]
      exact ih j (by simpa using h)

/-- C7: the batch loop yields exactly one row per reference, in order; each
row's first component is its reference; a reference whose pipeline run
succeeds is recorded as an `"OK"` row carrying the (non-empty) returned
output paths, a reference whose run fails with any error is recorded as an
`"ERROR: ..."` row — each row is determined by its own reference alone, so
one failure never disturbs the rows of subsequent references.  The base name
the pipeline is invoked with is the last-11-character slice of the
reference.  The hypothesis states that the pipeline returns non-empty paths
on success, as `save_transcript` (which returns absolute paths) does. -/
theorem runBatch_isolation
    (save : String → String → Bool → Except String (String × String × String))
    (ts : Bool) (entries : List String)
    (hsave : ∀ r b t txt para vtt,
      save r b t = Except.ok (txt, para, vtt) → txt ≠ "" ∧ para ≠ "") :
    (runBatch save ts entries).length = entries.length ∧
    ∀ i, i < entries.length →
      ((runBatch save ts entries).getD i ("", "", "", "")).1 = entries.getD i "" ∧
      (∀ txt para vtt,
        save (entries.getD i "") (lastChars 11 (entries.getD i "")) ts =
            Except.ok (txt, para, vtt) →
        (runBatch save ts entries).getD i ("", "", "", "") =
            (entries.getD i "", "OK", txt, para) ∧ txt ≠ "" ∧ para ≠ "") ∧
      (∀ e,
        save (entries.getD i "") (lastChars 11 (entries.getD i "")) ts = Except.error e →
        (runBatch save ts entries).getD i ("", "", "", "") =
            (entries.getD i "", "ERROR: " ++ e, "", "")) := by
  constructor
  · simp [runBatch]
  · intro i hi
    unfold runBatch
    rw [getD_map_lt _ entries i hi ("", "", "", "") ""]
    refine ⟨?_, ?_, ?_⟩
    · cases hs : save (entries.getD i "") (lastChars 11 (entries.getD i "")) ts with
      | ok v => obtain ⟨txt, para, vtt⟩ := v; rfl
      | error e => rfl
    · intro txt para vtt hok
      refine ⟨by rw [hok], hsave _ _ _ _ _ _ hok⟩
    · intro e herr
      rw [herr]

/-- C7 witness: a batch with a single reference and an always-succeeding
pipeline returning the paths `"t"`, `"p"`, `"v"`. -/
theorem runBatch_isolation_witness :
    (runBatch saveOkStub false ["refA"]).length = (["refA"] : List String).length ∧
    ∀ i, i < (["refA"] : List String).length →
      ((runBatch saveOkStub false ["refA"]).getD i ("", "", "", "")).1 =
          (["refA"] : List String).getD i "" ∧
      (∀ txt para vtt,
        saveOkStub ((["refA"] : List String).getD i "")
            (lastChars 11 ((["refA"] : List String).getD i "")) false =
          Except.ok (txt, para, vtt) →
        (runBatch saveOkStub false ["refA"]).getD i ("", "", "", "") =
          ((["refA"] : List String).getD i "", "OK", txt, para) ∧ txt ≠ "" ∧ para ≠ "") ∧
      (∀ e,
        saveOkStub ((["refA"] : List String).getD i "")
            (lastChars 11 ((["refA"] : List String).getD i "")) false = Except.error e →
        (runBatch saveOkStub false ["refA"]).getD i ("", "", "", "") =
          ((["refA"] : List String).getD i "", "ERROR: " ++ e, "", "")) :=
  runBatch_isolation saveOkStub false ["refA"]
    (fun _ _ _ txt para _ h => by
      simp only [saveOkStub, Except.ok.injEq, Prod.mk.injEq] at h
      obtain ⟨h1, h2, -⟩ := h
      exact ⟨by rw [← h1]; decide, by rw [← h2]; decide⟩)

/-- C10: the last-11-characters base-name slice is total and is the whole
reference for references shorter than 11 characters, and the batch loop
still produces its one row for such a reference. -/
theorem lastChars_short_total
    (save : String → String → Bool → Except String (String × String × String))
    (ts : Bool) (s : String) (h : s.data.length < 11) :
    lastChars 11 s = s ∧ (runBatch save ts [s]).length = 1 := by
  constructor
  · unfold lastChars
    have h0 : s.data.length - 11 = 0 := by omega
    rw [h0]
    rfl
  · simp [runBatch]

/-- C10 witness: the five-character reference `"short"`, batched through an
always-failing pipeline. -/
theorem lastChars_short_total_witness :
    lastChars 11 "short" = "short" ∧
      (runBatch saveErrStub false ["short"]).length = 1 :=
  lastChars_short_total saveErrStub false "short" (by decide)

end Snypso
